import Mathlib

/-!
Shallow embedding of the MedLex backend (`src/server.py`): a FastAPI layer
over two MongoDB collections (`medical_terms`, `phrases`).

Modelling conventions:
- A BSON document is an association list of string keys to `BVal` values,
  restricted to the value shapes this service ever stores or reads
  (strings, datetimes, string arrays for `relatedTerms`, the two-field
  example subdocument, and null).
- A collection is an association list from the store-native ObjectId
  (canonically a lowercase 24-hex string) to a document; the store
  guarantees `_id` uniqueness and `find_one` / `update_one` / `delete_one`
  act on the first match.
- `datetime.utcnow()` is modelled by passing each read of the monotone
  clock as an explicit `Nat` argument (two arguments where the source
  calls `utcnow()` twice).
- Python exceptions that no handler catches (`bson.errors.InvalidId`,
  `KeyError`, `TypeError`) are distinguished from the deliberately raised
  `HTTPException(404)` by the `Res` result type.
-/

/-- BSON values as used by this service: null, strings, datetimes,
arrays of strings (`relatedTerms`), and the `{german, kurdish}` example
subdocument. -/
inductive BVal where
  | null
  | str (s : String)
  | time (t : Nat)
  | arr (xs : List String)
  | obj (german kurdish : String)
deriving DecidableEq, Repr

/-- A BSON document: keys to values, insertion-ordered, unique keys in
every document this service builds or stores. -/
abbrev Doc : Type := List (String × BVal)

/-- Python `d[k]` / `d.get(k)`: the value at the first occurrence of key
`k`, if any. -/
def Doc.get? : Doc → String → Option BVal
  | [], _ => none
  | (k, v) :: rest, key => if k = key then some v else Doc.get? rest key

/-- Python `d[k] = v` on a dict (and MongoDB `$set` of a single field):
replace the value at `k` if the key is present, else append the binding. -/
def Doc.set : Doc → String → BVal → Doc
  | [], key, v => [(key, v)]
  | (k, w) :: rest, key, v =>
    if k = key then (key, v) :: rest else (k, w) :: Doc.set rest key v

/-- MongoDB `$set` with a whole patch document: set each binding in order. -/
def Doc.setAll (d : Doc) (patch : Doc) : Doc :=
  patch.foldl (fun acc kv => acc.set kv.1 kv.2) d

/-- Hexadecimal digit test used by `bson.ObjectId`'s string validation. -/
def isHexChar (c : Char) : Bool :=
  c.isDigit || ('a' ≤ c && c ≤ 'f') || ('A' ≤ c && c ≤ 'F')

/-- Model of `bson.ObjectId(s)` on a Python `str`: accepts exactly the
24-character hexadecimal strings and normalises to lowercase (two hex
spellings of the same 12 bytes are the same ObjectId, and `str(ObjectId(s))`
is the lowercase form); raises `InvalidId` (here: `none`) otherwise. -/
def objectIdDecode (s : String) : Option String :=
  if s.length = 24 && s.data.all isHexChar then some ⟨s.data.map Char.toLower⟩ else none

/-- A MongoDB collection: ObjectId (canonical lowercase hex string) to
document. The store never holds two documents with the same `_id`. -/
abbrev Collection : Type := List (String × Doc)

/-- MongoDB `find_one({"_id": oid})`: the first document with that id. -/
def findOne : Collection → String → Option Doc
  | [], _ => none
  | (i, d) :: rest, oid => if i = oid then some d else findOne rest oid

/-- MongoDB `update_one({"_id": oid}, {"$set": patch})`: apply the patch
to the first matching document; no-op when no document matches. -/
def updateOne : Collection → String → Doc → Collection
  | [], _, _ => []
  | (i, d) :: rest, oid, patch =>
    if i = oid then (i, d.setAll patch) :: rest
    else (i, d) :: updateOne rest oid patch

/-- MongoDB `delete_one({"_id": oid})`: remove the first matching
document; no-op when no document matches. -/
def deleteOne : Collection → String → Collection
  | [], _ => []
  | (i, d) :: rest, oid => if i = oid then rest else (i, d) :: deleteOne rest oid

/-- PCRE metacharacters of a `$regex` pattern: a pattern containing none
of these is matched purely literally by the regex engine. -/
def isRegexMeta (c : Char) : Bool :=
  c == '.' || c == '^' || c == '$' || c == '*' || c == '+' || c == '?' ||
  c == '(' || c == ')' || c == '[' || c == ']' || c == '\x7b' ||
  c == '\x7d' || c == '|' || c == '\\'

/-- One atom of a `$regex` pattern in the fragment this model covers:
`.` matches any character, every other character matches itself
case-insensitively (the `$options: "i"` flag). The model is faithful only
to patterns whose sole metacharacter is `.`; patterns containing any
other PCRE metacharacter (see `isRegexMeta`) are outside it, so the
general theorems below quantify only over metacharacter-free patterns,
and the one concrete counterexample uses the pattern `"."`. -/
def reAtom (p c : Char) : Bool := p == '.' || p.toLower == c.toLower

/-- The pattern matches at the start of the string (each atom against one
character in order). -/
def reLead : List Char → List Char → Bool
  | [], _ => true
  | _ :: _, [] => false
  | p :: ps, c :: cs => reAtom p c && reLead ps cs

/-- Unanchored regex search, as MongoDB `$regex` performs it: the pattern
matches at some position of the string. -/
def reFound (pat : List Char) : List Char → Bool
  | [] => pat.isEmpty
  | c :: cs => reLead pat (c :: cs) || reFound pat cs

/-- Case-insensitive "starts with" on character lists (spec-side notion). -/
def ciLead : List Char → List Char → Bool
  | [], _ => true
  | _ :: _, [] => false
  | p :: ps, c :: cs => (p.toLower == c.toLower) && ciLead ps cs

/-- Modelled from the spec's words ("contains `search` as a substring,
case-insensitively"): case-insensitive substring containment, for
comparison with the source's `$regex` behaviour. -/
def specContainsCI (pat : List Char) : List Char → Bool
  | [] => pat.isEmpty
  | c :: cs => ciLead pat (c :: cs) || specContainsCI pat cs

/-- The source's search clause on one field: `{field: {"$regex": s,
"$options": "i"}}` — matches when the field holds a string the pattern is
found in; missing or non-string fields never match. -/
def fieldMatchesRe (d : Doc) (key : String) (pat : String) : Bool :=
  match d.get? key with
  | some (.str v) => reFound pat.data v.data
  | _ => false

/-- Spec-side counterpart of `fieldMatchesRe`: case-insensitive substring
containment on the field's string value. -/
def fieldContainsCI (d : Doc) (key : String) (pat : String) : Bool :=
  match d.get? key with
  | some (.str v) => specContainsCI pat.data v.data
  | _ => false

/-- The category clause of `get_all_terms`: Python adds
`{"category": category}` only when `category` is truthy (non-empty) and not
the `"all"` sentinel. -/
def matchesCategory (category : Option String) (d : Doc) : Bool :=
  match category with
  | none => true
  | some c =>
    if c ≠ "" ∧ c ≠ "all" then decide (d.get? "category" = some (.str c)) else true

/-- The search clause of `get_all_terms`: Python adds the `$or` of the two
regex clauses only when `search` is truthy (non-empty). -/
def matchesSearch (search : Option String) (d : Doc) : Bool :=
  match search with
  | none => true
  | some s =>
    if s ≠ "" then fieldMatchesRe d "german" s || fieldMatchesRe d "kurdish" s
    else true

/-- The whole query built by `get_all_terms`: conjunction of its clauses. -/
def matchesQuery (category search : Option String) (d : Doc) : Bool :=
  matchesCategory category d && matchesSearch search d

/-- Spec-side search clause: substring containment instead of regex. -/
def specMatchesSearch (search : Option String) (d : Doc) : Bool :=
  match search with
  | none => true
  | some s =>
    if s ≠ "" then fieldContainsCI d "german" s || fieldContainsCI d "kurdish" s
    else true

/-- Spec-side query: category clause unchanged, search clause by substring. -/
def specMatchesQuery (category search : Option String) (d : Doc) : Bool :=
  matchesCategory category d && specMatchesSearch search d

/-- BSON type rank (restricted to the value shapes of this model): Null <
numbers < strings < objects < arrays < dates, following the BSON
comparison order MongoDB sorts by. -/
def bvalRank : BVal → Nat
  | .null => 2
  | .str _ => 4
  | .obj _ _ => 5
  | .arr _ => 6
  | .time _ => 10

/-- Lexicographic comparison of strings by code point (MongoDB's default
UTF-8 binary collation orders strings the same way). -/
def strLeB : List Char → List Char → Bool
  | [], _ => true
  | _ :: _, [] => false
  | a :: as, b :: bs =>
    if a.toNat < b.toNat then true
    else if b.toNat < a.toNat then false
    else strLeB as bs

/-- MongoDB's value comparison as used by `sort("german", 1)`, restricted
to this model's values: different BSON types compare by rank; strings
lexicographically; dates numerically. Within-type order on arrays and
objects is coarsened to a preorder (never used as a sort key here). -/
def bvalLe (a b : BVal) : Bool :=
  match a, b with
  | .str x, .str y => strLeB x.data y.data
  | .time x, .time y => decide (x ≤ y)
  | x, y => decide (bvalRank x ≤ bvalRank y)

/-- Sort-key comparison including the missing-field case: a document
without the key sorts before any document with it. -/
def optLe : Option BVal → Option BVal → Bool
  | none, _ => true
  | some _, none => false
  | some a, some b => bvalLe a b

/-- Comparison of two collection entries by their `german` field, the key
of `sort("german", 1)`. -/
def entryLe (e1 e2 : String × Doc) : Bool :=
  optLe (e1.2.get? "german") (e2.2.get? "german")

/-- Insert into a sorted list, keeping earlier elements first on ties
(stability, as MongoDB's sort is stable). -/
def oInsert (le : α → α → Bool) (a : α) : List α → List α
  | [] => [a]
  | b :: l => if le a b then a :: b :: l else b :: oInsert le a l

/-- Stable insertion sort, modelling the cursor's `sort("german", 1)`. -/
def sortBy (le : α → α → Bool) : List α → List α
  | [] => []
  | a :: l => oInsert le a (sortBy le l)

/-- Model of `term_helper(term)` (src/server.py:41): shapes a stored term
document, with the document's `_id` passed separately as `oid`. Reads
`german`, `kurdish` and `category` by subscription — a missing key raises
`KeyError` (here: `none`); optional fields default to `None`, and
`relatedTerms` to `[]` when the key is absent. -/
def term_helper (oid : String) (t : Doc) : Option Doc :=
  match t.get? "german", t.get? "kurdish", t.get? "category" with
  | some g, some k, some c =>
    some [("id", .str oid),
          ("german", g),
          ("kurdish", k),
          ("pronunciationDe", (t.get? "pronunciationDe").getD .null),
          ("pronunciationKu", (t.get? "pronunciationKu").getD .null),
          ("category", c),
          ("example", (t.get? "example").getD .null),
          ("relatedTerms", (t.get? "relatedTerms").getD (.arr []))]
  | _, _, _ => none

/-- Model of `phrase_helper(phrase)` (src/server.py:53): all four reads
are subscriptions, so any missing key raises `KeyError` (here: `none`). -/
def phrase_helper (oid : String) (p : Doc) : Option Doc :=
  match p.get? "german", p.get? "kurdish", p.get? "context" with
  | some g, some k, some c =>
    some [("id", .str oid), ("german", g), ("kurdish", k), ("context", c)]
  | _, _, _ => none

/-- The `async for`/append loop of `get_all_terms`: shape every document,
propagating a helper's `KeyError` (here: `none`). -/
def shapeAll : List (String × Doc) → Option (List Doc)
  | [] => some []
  | e :: rest =>
    match term_helper e.1 e.2, shapeAll rest with
    | some d, some ds => some (d :: ds)
    | _, _ => none

/-- Unhandled Python exceptions the endpoints can raise. -/
inductive PyErr where
  | invalidId
  | keyError
  | typeError
deriving DecidableEq, Repr

/-- Outcome of an endpoint call: a value, the deliberate
`HTTPException(404, "Term not found")`, or an unhandled exception (which
the framework surfaces as an internal server error). -/
inductive Res (α : Type) where
  | ok (a : α)
  | notFound
  | err (e : PyErr)
deriving DecidableEq, Repr

/-- Model of `GET /api/terms` (`get_all_terms`, src/server.py:65): build
the query from the optional `category` and `search` parameters, filter,
sort ascending by `german`, and shape each result. -/
def get_all_terms (terms : Collection) (category search : Option String) :
    Option (List Doc) :=
  shapeAll (sortBy entryLe (terms.filter (fun e => matchesQuery category search e.2)))

/-- Spec-side variant of `get_all_terms` whose search clause is literal
case-insensitive substring containment (the spec's words), for comparison
with the source's regex behaviour. -/
def specList (terms : Collection) (category search : Option String) :
    Option (List Doc) :=
  shapeAll (sortBy entryLe (terms.filter (fun e => specMatchesQuery category search e.2)))

/-- Model of `GET /api/terms/{term_id}` (`get_term`, src/server.py:81):
`ObjectId(term_id)` raises `InvalidId` on a malformed id; a missing record
raises `HTTPException(404)`; otherwise the shaped record is returned. -/
def get_term (terms : Collection) (term_id : String) : Res Doc :=
  match objectIdDecode term_id with
  | none => .err .invalidId
  | some oid =>
    match findOne terms oid with
    | none => .notFound
    | some t =>
      match term_helper oid t with
      | none => .err .keyError
      | some sh => .ok sh

/-- Pydantic submodel `ExampleSentence`. -/
structure ExampleSentence where
  german : String
  kurdish : String
deriving DecidableEq, Repr

/-- Pydantic model `MedicalTermCreate` (src/server.py:32); the source's
`example` field is spelled `example'` here because `example` is a Lean
keyword. -/
structure MedicalTermCreate where
  german : String
  kurdish : String
  pronunciationDe : Option String := none
  pronunciationKu : Option String := none
  category : String
  example' : Option ExampleSentence := none
  relatedTerms : Option (List String) := some []
deriving DecidableEq, Repr

/-- An absent optional string dumps as `None` (BSON null). -/
def optStrVal : Option String → BVal
  | none => .null
  | some s => .str s

/-- Dump of the optional example subdocument. -/
def exampleVal : Option ExampleSentence → BVal
  | none => .null
  | some e => .obj e.german e.kurdish

/-- Dump of the optional `relatedTerms` list. -/
def relatedVal : Option (List String) → BVal
  | none => .null
  | some l => .arr l

/-- Pydantic `model_dump()`: every declared field, in declaration order,
with `None` for unset optionals. -/
def MedicalTermCreate.model_dump (t : MedicalTermCreate) : Doc :=
  [("german", .str t.german),
   ("kurdish", .str t.kurdish),
   ("pronunciationDe", optStrVal t.pronunciationDe),
   ("pronunciationKu", optStrVal t.pronunciationKu),
   ("category", .str t.category),
   ("example", exampleVal t.example'),
   ("relatedTerms", relatedVal t.relatedTerms)]

/-- The re-read-and-shape step shared by `create_term` and `update_term`:
`find_one` the record again and return `term_helper` of it —
`term_helper(None)` raises `TypeError` when the record is absent, and a
`KeyError` from the helper also propagates. -/
def readback (c : Collection) (oid : String) : Res Doc :=
  match findOne c oid with
  | none => .err .typeError
  | some t =>
    match term_helper oid t with
    | none => .err .keyError
    | some sh => .ok sh

/-- Model of `POST /api/terms` (`create_term`, src/server.py:88): dump the
validated input, stamp `createdAt` and `updatedAt` with two successive
`utcnow()` reads (`now1`, then `now2`), insert under the store-assigned
fresh id `newOid`, re-read, and shape. -/
def create_term (terms : Collection) (input : MedicalTermCreate)
    (now1 now2 : Nat) (newOid : String) : Res Doc × Collection :=
  let d := ((input.model_dump.set "createdAt" (.time now1)).set "updatedAt" (.time now2))
  let terms' : Collection := (newOid, d) :: terms
  (readback terms' newOid, terms')

/-- Model of `PUT /api/terms/{term_id}` (`update_term`, src/server.py:97):
overwrite the patch's `updatedAt` with the clock, `$set` the patch on the
matching record, re-read, and shape; `term_helper(None)` on a vanished or
never-existing record raises `TypeError` (here: `.err .typeError`). -/
def update_term (terms : Collection) (term_id : String) (patch : Doc)
    (now : Nat) : Res Doc × Collection :=
  match objectIdDecode term_id with
  | none => (.err .invalidId, terms)
  | some oid =>
    let patch' := patch.set "updatedAt" (.time now)
    let terms' := updateOne terms oid patch'
    (readback terms' oid, terms')

/-- Model of `DELETE /api/terms/{term_id}` (`delete_term`,
src/server.py:104): decode the id (raising `InvalidId` when malformed),
delete the first match if any, and report success either way. -/
def delete_term (terms : Collection) (term_id : String) :
    Res Unit × Collection :=
  match objectIdDecode term_id with
  | none => (.err .invalidId, terms)
  | some oid => (.ok (), deleteOne terms oid)

/-- The re-read-and-shape step of `create_phrase`: `find_one` the record
again and return `phrase_helper` of it. -/
def phraseReadback (c : Collection) (oid : String) : Res Doc :=
  match findOne c oid with
  | none => .err .typeError
  | some q =>
    match phrase_helper oid q with
    | none => .err .keyError
    | some sh => .ok sh

/-- Model of `POST /api/phrases` (`create_phrase`, src/server.py:117):
insert the unvalidated mapping as-is under the store-assigned id, re-read,
then shape — where `phrase_helper` raises `KeyError` on any missing key,
after the insert has already happened. -/
def create_phrase (phrases : Collection) (p : Doc) (newOid : String) :
    Res Doc × Collection :=
  let phrases' : Collection := (newOid, p) :: phrases
  (phraseReadback phrases' newOid, phrases')

/-! ### Association-list lemmas for documents and collections -/

/-- Key list of a document. -/
def Doc.keys (d : Doc) : List String := d.map Prod.fst

theorem Doc.get?_set_self (d : Doc) (k : String) (v : BVal) :
    (d.set k v).get? k = some v := by
  induction d with
  | nil => simp [Doc.set, Doc.get?]
  | cons hd tl ih =>
    obtain ⟨k0, w⟩ := hd
    by_cases h : k0 = k
    · simp [Doc.set, h, Doc.get?]
    · simp [Doc.set, h, Doc.get?, ih]

theorem Doc.get?_set_ne (d : Doc) {k k' : String} (v : BVal) (h : k' ≠ k) :
    (d.set k v).get? k' = d.get? k' := by
  induction d with
  | nil => simp [Doc.set, Doc.get?, Ne.symm h]
  | cons hd tl ih =>
    obtain ⟨k0, w⟩ := hd
    by_cases h0 : k0 = k
    · subst h0
      simp [Doc.set, Doc.get?, Ne.symm h]
    · simp [Doc.set, h0, Doc.get?, ih]

theorem Doc.mem_keys_set {d : Doc} {k k' : String} {v : BVal}
    (h : k' ∈ (d.set k v).keys) : k' ∈ d.keys ∨ k' = k := by
  induction d with
  | nil =>
    simp only [Doc.set, Doc.keys, List.map_cons, List.map_nil, List.mem_cons,
      List.not_mem_nil, or_false] at h
    exact Or.inr h
  | cons hd tl ih =>
    obtain ⟨k0, w⟩ := hd
    by_cases h0 : k0 = k
    · subst h0
      simp [Doc.set, Doc.keys] at h ⊢
      tauto
    · simp only [Doc.set, if_neg h0, Doc.keys, List.map_cons, List.mem_cons] at h ⊢
      rcases h with h | h
      · exact Or.inl (Or.inl h)
      · rcases ih h with h' | h'
        · exact Or.inl (Or.inr h')
        · exact Or.inr h'

theorem Doc.keys_set_nodup {d : Doc} {k : String} {v : BVal}
    (h : d.keys.Nodup) : (d.set k v).keys.Nodup := by
  induction d with
  | nil => simp [Doc.set, Doc.keys]
  | cons hd tl ih =>
    obtain ⟨k0, w⟩ := hd
    simp only [Doc.keys, List.map_cons, List.nodup_cons] at h
    by_cases h0 : k0 = k
    · subst h0
      simpa [Doc.set, Doc.keys] using h
    · simp only [Doc.set, if_neg h0, Doc.keys, List.map_cons, List.nodup_cons]
      refine ⟨fun hmem => ?_, ih h.2⟩
      rcases Doc.mem_keys_set hmem with h' | h'
      · exact h.1 (by simpa [Doc.keys] using h')
      · exact h0 h'

theorem Doc.setAll_nil (d : Doc) : d.setAll [] = d := rfl

theorem Doc.setAll_cons (d : Doc) (kv : String × BVal) (ps : Doc) :
    d.setAll (kv :: ps) = (d.set kv.1 kv.2).setAll ps := rfl

theorem Doc.get?_setAll_not_mem {patch : Doc} {k : String} (d : Doc)
    (h : k ∉ patch.keys) : (d.setAll patch).get? k = d.get? k := by
  induction patch generalizing d with
  | nil => rfl
  | cons hd tl ih =>
    simp only [Doc.keys, List.map_cons, List.mem_cons] at h
    push_neg at h
    rw [Doc.setAll_cons, ih _ (by simpa [Doc.keys] using h.2),
      Doc.get?_set_ne _ _ h.1]

theorem Doc.get?_setAll {patch : Doc} (d : Doc) (k : String)
    (h : patch.keys.Nodup) :
    (d.setAll patch).get? k =
      match patch.get? k with
      | some v => some v
      | none => d.get? k := by
  induction patch generalizing d with
  | nil => rfl
  | cons hd tl ih =>
    obtain ⟨k0, v0⟩ := hd
    simp only [Doc.keys, List.map_cons, List.nodup_cons] at h
    rw [Doc.setAll_cons]
    by_cases h0 : k0 = k
    · subst h0
      rw [Doc.get?_setAll_not_mem _ (by simpa [Doc.keys] using h.1)]
      simp [Doc.get?, Doc.get?_set_self]
    · rw [ih _ h.2]
      simp [Doc.get?, h0, Doc.get?_set_ne _ _ (Ne.symm h0)]

theorem findOne_updateOne (c : Collection) (oid : String) (patch : Doc) :
    findOne (updateOne c oid patch) oid = (findOne c oid).map (fun d => d.setAll patch) := by
  induction c with
  | nil => rfl
  | cons hd tl ih =>
    obtain ⟨i, d⟩ := hd
    by_cases h : i = oid
    · simp [updateOne, findOne, h]
    · simp [updateOne, findOne, h, ih]

theorem findOne_eq_none_of_not_mem {c : Collection} {oid : String}
    (h : oid ∉ c.map Prod.fst) : findOne c oid = none := by
  induction c with
  | nil => rfl
  | cons hd tl ih =>
    simp only [List.map_cons, List.mem_cons] at h
    push_neg at h
    simp [findOne, Ne.symm h.1, ih h.2]

theorem findOne_deleteOne_self {c : Collection} {oid : String}
    (h : (c.map Prod.fst).Nodup) : findOne (deleteOne c oid) oid = none := by
  induction c with
  | nil => rfl
  | cons hd tl ih =>
    obtain ⟨i, d⟩ := hd
    simp only [List.map_cons, List.nodup_cons] at h
    by_cases h0 : i = oid
    · subst h0
      simp only [deleteOne, if_pos rfl]
      exact findOne_eq_none_of_not_mem h.1
    · simp [deleteOne, findOne, h0, ih h.2]

/-! ### Regex-fragment lemmas -/

theorem reLead_eq_ciLead {pat : List Char} (h : '.' ∉ pat) :
    ∀ s, reLead pat s = ciLead pat s := by
  induction pat with
  | nil => intro s; rfl
  | cons p ps ih =>
    intro s
    simp only [List.mem_cons] at h
    push_neg at h
    cases s with
    | nil => rfl
    | cons c cs =>
      have hp : (p == '.') = false := by
        simp [Ne.symm h.1]
      simp [reLead, ciLead, reAtom, hp, ih h.2]

theorem reFound_eq_specContainsCI {pat : List Char} (h : '.' ∉ pat) :
    ∀ s, reFound pat s = specContainsCI pat s := by
  intro s
  induction s with
  | nil => rfl
  | cons c cs ih => simp [reFound, specContainsCI, reLead_eq_ciLead h, ih]

theorem ciLead_iff (pat : List Char) :
    ∀ s, ciLead pat s = true ↔
      ∃ r, s.map Char.toLower = pat.map Char.toLower ++ r := by
  induction pat with
  | nil =>
    intro s
    simp [ciLead]
  | cons p ps ih =>
    intro s
    cases s with
    | nil =>
      simp [ciLead]
    | cons c cs =>
      simp only [ciLead, Bool.and_eq_true, beq_iff_eq, List.map_cons,
        List.cons_append, List.cons.injEq, ih]
      constructor
      · rintro ⟨h1, r, h2⟩
        exact ⟨r, h1.symm, h2⟩
      · rintro ⟨r, h1, h2⟩
        exact ⟨h1.symm, r, h2⟩

theorem specContainsCI_iff (pat : List Char) :
    ∀ s, specContainsCI pat s = true ↔
      ∃ l r, s.map Char.toLower = l ++ pat.map Char.toLower ++ r := by
  intro s
  induction s with
  | nil =>
    cases pat with
    | nil => simp [specContainsCI]
    | cons p ps => simp [specContainsCI, List.isEmpty]
  | cons c cs ih =>
    simp only [specContainsCI, Bool.or_eq_true, ciLead_iff, ih, List.map_cons]
    constructor
    · rintro (⟨r, hr⟩ | ⟨l, r, hlr⟩)
      · exact ⟨[], r, by simpa using hr⟩
      · exact ⟨c.toLower :: l, r, by simp [hlr]⟩
    · rintro ⟨l, r, hlr⟩
      cases l with
      | nil =>
        exact Or.inl ⟨r, by simpa using hlr⟩
      | cons x l' =>
        simp only [List.cons_append, List.cons.injEq, List.append_assoc] at hlr
        exact Or.inr ⟨l', r, by simpa using hlr.2⟩

/-! ### Sort lemmas -/

theorem char_lt_iff_toNat {a b : Char} : a < b ↔ a.toNat < b.toNat :=
  Iff.rfl

theorem strLeB_total : ∀ a b : List Char, strLeB a b = true ∨ strLeB b a = true := by
  intro a
  induction a with
  | nil => intro b; exact Or.inl rfl
  | cons x xs ih =>
    intro b
    cases b with
    | nil => exact Or.inr rfl
    | cons y ys =>
      rcases Nat.lt_trichotomy x.toNat y.toNat with h | h | h
      · exact Or.inl (by simp [strLeB, h])
      · rcases ih ys with h' | h'
        · exact Or.inl (by simp [strLeB, h, h'])
        · exact Or.inr (by simp [strLeB, h, h'])
      · exact Or.inr (by simp [strLeB, h])

theorem strLeB_iff_not_lt : ∀ a b : List Char, strLeB a b = true ↔ ¬b < a := by
  intro a
  induction a with
  | nil =>
    intro b
    refine iff_of_true rfl ?_
    intro h
    cases h
  | cons x xs ih =>
    intro b
    cases b with
    | nil =>
      refine iff_of_false (by simp [strLeB]) ?_
      intro hn
      exact hn List.Lex.nil
    | cons y ys =>
      rcases Nat.lt_trichotomy x.toNat y.toNat with h | h | h
      · refine iff_of_true (by simp [strLeB, h]) ?_
        intro hlt
        cases hlt with
        | cons h2 => exact Nat.lt_irrefl _ h
        | rel h1 => exact Nat.lt_asymm h (char_lt_iff_toNat.mp h1)
      · have heq : x = y := by
          have h1 := Char.ofNat_toNat x
          rw [← h1, h, Char.ofNat_toNat]
        subst heq
        have hstep : strLeB (x :: xs) (x :: ys) = strLeB xs ys := by
          simp [strLeB]
        rw [hstep, ih ys]
        constructor
        · intro hn hlt
          cases hlt with
          | cons h3 => exact hn h3
          | rel h1 => exact Nat.lt_irrefl _ (char_lt_iff_toNat.mp h1)
        · intro hn hlt
          exact hn (List.Lex.cons hlt)
      · refine iff_of_false (by simp [strLeB, h, Nat.lt_asymm h]) ?_
        intro hn
        exact hn (List.Lex.rel (char_lt_iff_toNat.mpr h))

theorem strLeB_iff_le (x y : String) : strLeB x.data y.data = true ↔ x ≤ y := by
  rw [String.le_iff_toList_le, ← not_lt]
  exact strLeB_iff_not_lt x.data y.data

theorem bvalLe_total (a b : BVal) : bvalLe a b = true ∨ bvalLe b a = true := by
  cases a <;> cases b <;> simp [bvalLe] <;> first
    | omega
    | exact strLeB_total _ _

theorem optLe_total (a b : Option BVal) : optLe a b = true ∨ optLe b a = true := by
  cases a <;> cases b <;> simp [optLe]
  exact bvalLe_total _ _

theorem entryLe_total (a b : String × Doc) :
    entryLe a b = true ∨ entryLe b a = true := optLe_total _ _

theorem chain'_oInsert {le : α → α → Bool}
    (htot : ∀ a b, le a b = true ∨ le b a = true) (a : α) :
    ∀ {l : List α}, List.Chain' (fun x y => le x y = true) l →
      List.Chain' (fun x y => le x y = true) (oInsert le a l) := by
  intro l
  induction l with
  | nil => intro _; simp [oInsert]
  | cons b t ih =>
    intro hc
    by_cases hab : le a b = true
    · simp only [oInsert]
      rw [if_pos hab]
      exact List.chain'_cons.mpr ⟨hab, hc⟩
    · have hba : le b a = true := (htot a b).resolve_left hab
      have hct : List.Chain' (fun x y => le x y = true) t := hc.tail
      have hrest := ih hct
      simp only [oInsert]
      rw [if_neg hab, List.chain'_cons']
      refine ⟨?_, hrest⟩
      intro y hy
      cases t with
      | nil =>
        simp [oInsert] at hy
        subst hy
        exact hba
      | cons c t' =>
        simp only [oInsert] at hy
        by_cases hac : le a c = true
        · rw [if_pos hac] at hy
          simp at hy
          subst hy
          exact hba
        · rw [if_neg hac] at hy
          simp at hy
          subst hy
          exact (List.chain'_cons.mp hc).1

theorem chain'_sortBy {le : α → α → Bool}
    (htot : ∀ a b, le a b = true ∨ le b a = true) :
    ∀ l : List α, List.Chain' (fun x y => le x y = true) (sortBy le l) := by
  intro l
  induction l with
  | nil => simp [sortBy]
  | cons a t ih => exact chain'_oInsert htot a ih

theorem mem_oInsert {le : α → α → Bool} {x a : α} :
    ∀ {l : List α}, x ∈ oInsert le a l → x = a ∨ x ∈ l := by
  intro l
  induction l with
  | nil => intro h; simpa [oInsert] using h
  | cons b t ih =>
    intro h
    simp only [oInsert] at h
    by_cases hab : le a b = true
    · rw [if_pos hab] at h
      simpa using h
    · rw [if_neg hab] at h
      simp only [List.mem_cons] at h
      rcases h with h | h
      · exact Or.inr (by simp [h])
      · rcases ih h with h' | h'
        · exact Or.inl h'
        · exact Or.inr (by simp [h'])

theorem mem_sortBy {le : α → α → Bool} {x : α} :
    ∀ {l : List α}, x ∈ sortBy le l → x ∈ l := by
  intro l
  induction l with
  | nil =>
    intro h
    simp [sortBy] at h
  | cons a t ih =>
    intro h
    rcases mem_oInsert h with h' | h'
    · simp [h']
    · exact List.mem_cons_of_mem _ (ih h')

/-! ### Shaping lemmas -/

theorem shapeAll_forall₂ :
    ∀ {l : List (String × Doc)} {out : List Doc}, shapeAll l = some out →
      List.Forall₂ (fun e d => term_helper e.1 e.2 = some d) l out := by
  intro l
  induction l with
  | nil =>
    intro out h
    simp only [shapeAll, Option.some.injEq] at h
    subst h
    exact List.Forall₂.nil
  | cons e t ih =>
    intro out h
    simp only [shapeAll] at h
    rcases he : term_helper e.1 e.2 with _ | d <;> rw [he] at h
    · exact absurd h (by simp)
    · rcases ht : shapeAll t with _ | ds <;> rw [ht] at h
      · exact absurd h (by simp)
      · simp only [Option.some.injEq] at h
        subst h
        exact List.Forall₂.cons he (ih ht)

theorem term_helper_german {oid : String} {t sh : Doc}
    (h : term_helper oid t = some sh) : sh.get? "german" = t.get? "german" := by
  unfold term_helper at h
  rcases hg : t.get? "german" with _ | g <;> rw [hg] at h
  · exact absurd h (by simp)
  · rcases hk : t.get? "kurdish" with _ | k <;> rw [hk] at h
    · exact absurd h (by simp)
    · rcases hc : t.get? "category" with _ | c <;> rw [hc] at h
      · exact absurd h (by simp)
      · simp only [Option.some.injEq] at h
        subst h
        simp [Doc.get?]

theorem chain'_of_forall₂ {R : α → α → Prop} {S : β → β → Prop}
    {F : α → β → Prop} :
    ∀ {l : List α} {l' : List β}, List.Forall₂ F l l' → List.Chain' R l →
      (∀ a b a' b', F a a' → F b b' → R a b → S a' b') →
      List.Chain' S l' := by
  intro l l' hf
  induction hf with
  | nil => intro _ _; exact List.chain'_nil
  | @cons a a' l l' hfa hft ih =>
    intro hc htr
    rw [List.chain'_cons']
    refine ⟨?_, ih hc.tail htr⟩
    intro y hy
    cases hft with
    | nil => simp at hy
    | @cons b b' t t' hfb hft' =>
      simp only [List.head?_cons, Option.mem_def, Option.some.injEq] at hy
      subst hy
      exact htr a b a' b' hfa hfb (List.chain'_cons.mp hc).1

/-! ### Concrete fixtures -/

/-- A well-formed ObjectId string (24 lowercase hex characters). -/
def oidA : String := "aaaaaaaaaaaaaaaaaaaaaaaa"

/-- A second well-formed ObjectId string. -/
def oidB : String := "bbbbbbbbbbbbbbbbbbbbbbbb"

/-- A stored term document, as the spec's example scenario inserts it. -/
def herzDoc : Doc :=
  [("german", .str "Herz"), ("kurdish", .str "Dil"), ("category", .str "anatomy")]

/-- The example scenario's create input. -/
def sampleInput : MedicalTermCreate :=
  { german := "Herz", kurdish := "Dil", category := "anatomy" }

/-! ### Claim C1 -/

/-- C1 falls: `get` on the syntactically invalid identifier `"x"` does not
fail with `NotFound`; `ObjectId("x")` raises `InvalidId`, which no handler
catches. -/
theorem C1_counterexample :
    get_term [] "x" = Res.err PyErr.invalidId ∧ get_term [] "x" ≠ Res.notFound := by
  decide

/-- C1 (amended): on a syntactically invalid id, `get` raises an unhandled
`InvalidId` error (an internal error, not `NotFound`); on a well-formed id
that matches no record, `get` fails with `NotFound`. -/
theorem C1_theorem (terms : Collection) (id : String) :
    (objectIdDecode id = none → get_term terms id = Res.err PyErr.invalidId) ∧
    (∀ oid, objectIdDecode id = some oid → findOne terms oid = none →
      get_term terms id = Res.notFound) := by
  constructor
  · intro h
    simp [get_term, h]
  · intro oid h hf
    simp [get_term, h, hf]

/-- Witness for C1's amended theorem at concrete inputs. -/
theorem C1_witness :
    get_term [] "x" = Res.err PyErr.invalidId ∧ get_term [] oidA = Res.notFound :=
  ⟨(C1_theorem [] "x").1 (by decide),
   (C1_theorem [] oidA).2 oidA (by decide) rfl⟩

/-! ### Claim C2 -/

/-- C2 falls: `update` on a well-formed id that resolves to no record does
not fail with `NotFound` — `find_one` returns `None` and
`term_helper(None)` raises an unhandled `TypeError`. -/
theorem C2_counterexample :
    (update_term [] oidB [] 0).1 = Res.err PyErr.typeError ∧
    (update_term [] oidB [] 0).1 ≠ Res.notFound := by
  decide

/-- C2 (amended): for every well-formed id that does not resolve to an
existing term record and every patch, `update` raises an unhandled
`TypeError` (an internal error), not `NotFound`. -/
theorem C2_theorem (terms : Collection) (id oid : String) (patch : Doc)
    (now : Nat) (hdec : objectIdDecode id = some oid)
    (hmiss : findOne terms oid = none) :
    (update_term terms id patch now).1 = Res.err PyErr.typeError := by
  have h1 : findOne (updateOne terms oid (patch.set "updatedAt" (BVal.time now))) oid
      = none := by
    rw [findOne_updateOne, hmiss]
    rfl
  simp [update_term, readback, hdec, h1]

/-- Witness for C2's amended theorem at concrete inputs. -/
theorem C2_witness : (update_term [] oidB [] 0).1 = Res.err PyErr.typeError :=
  C2_theorem [] oidB oidB [] 0 (by decide) rfl

/-! ### Claim C9 -/

/-- C9 falls on its "for every id string" scope: `delete` on the malformed
id `"zz"` raises an unhandled `InvalidId` error instead of succeeding. -/
theorem C9_counterexample :
    (delete_term [] "zz").1 = Res.err PyErr.invalidId ∧
    (delete_term [] "zz").1 ≠ Res.ok () := by
  decide

/-- C9 (amended): for every well-formed id over a store with unique ids,
`delete` succeeds even when no record matches, deleting twice succeeds
both times, and `get` on that id fails with `NotFound` after the first
call. -/
theorem C9_theorem (terms : Collection) (id oid : String)
    (hdec : objectIdDecode id = some oid)
    (hnd : (terms.map Prod.fst).Nodup) :
    (delete_term terms id).1 = Res.ok () ∧
    (delete_term (delete_term terms id).2 id).1 = Res.ok () ∧
    get_term (delete_term terms id).2 id = Res.notFound := by
  refine ⟨by simp [delete_term, hdec], by simp [delete_term, hdec], ?_⟩
  simp [delete_term, get_term, hdec, findOne_deleteOne_self hnd]

/-- Witness for C9's amended theorem at concrete inputs. -/
theorem C9_witness :
    (delete_term [(oidA, herzDoc)] oidA).1 = Res.ok () ∧
    (delete_term (delete_term [(oidA, herzDoc)] oidA).2 oidA).1 = Res.ok () ∧
    get_term (delete_term [(oidA, herzDoc)] oidA).2 oidA = Res.notFound :=
  C9_theorem [(oidA, herzDoc)] oidA oidA (by decide) (by decide)

/-! ### Claim C10 -/

/-- C10: creating a phrase from a mapping that lacks `german`, `kurdish`
or `context` raises an unhandled `KeyError` during shaping, after the
document has already been inserted into the phrases collection. -/
theorem C10_theorem (phrases : Collection) (p : Doc) (oid : String)
    (hmiss : p.get? "german" = none ∨ p.get? "kurdish" = none ∨
      p.get? "context" = none) :
    (create_phrase phrases p oid).1 = Res.err PyErr.keyError ∧
    (oid, p) ∈ (create_phrase phrases p oid).2 := by
  have hph : phrase_helper oid p = none := by
    unfold phrase_helper
    rcases h1 : p.get? "german" with _ | g
    · rfl
    · rcases h2 : p.get? "kurdish" with _ | k
      · rfl
      · rcases h3 : p.get? "context" with _ | c
        · rfl
        · exfalso
          rcases hmiss with h | h | h <;> simp_all
  constructor
  · simp [create_phrase, phraseReadback, findOne, hph]
  · simp [create_phrase, phraseReadback, findOne, hph]

/-- Witness for C10's theorem: a phrase mapping with only `german`. -/
theorem C10_witness :
    (create_phrase [] [("german", BVal.str "Hallo")] oidA).1
      = Res.err PyErr.keyError ∧
    (oidA, [("german", BVal.str "Hallo")])
      ∈ (create_phrase [] [("german", BVal.str "Hallo")] oidA).2 :=
  C10_theorem [] [("german", BVal.str "Hallo")] oidA (by decide)

/-! ### Claim C5 -/

/-- C5: for every collection state and search argument, listing with
`category="all"` returns exactly what listing with no category argument
returns — the `"all"` sentinel is a no-op filter. -/
theorem C5_theorem (terms : Collection) (search : Option String) :
    get_all_terms terms (some "all") search = get_all_terms terms none search := by
  unfold get_all_terms
  have hf : terms.filter (fun e => matchesQuery (some "all") search e.2)
      = terms.filter (fun e => matchesQuery none search e.2) := by
    apply List.filter_congr
    intro e _
    simp [matchesQuery, matchesCategory]
  rw [hf]

/-! ### Claim C7 -/

/-- C7 falls: `create_term` reads the clock twice, once per timestamp; in
a run where the clock advances from 0 to 1 between the two `utcnow()`
calls, the stored record has `createdAt = 0` but `updatedAt = 1`. -/
theorem C7_counterexample :
    (findOne (create_term [] sampleInput 0 1 oidA).2 oidA).bind
        (fun d => d.get? "createdAt") = some (BVal.time 0) ∧
    (findOne (create_term [] sampleInput 0 1 oidA).2 oidA).bind
        (fun d => d.get? "updatedAt") = some (BVal.time 1) ∧
    BVal.time 0 ≠ BVal.time 1 := by
  decide

/-- C7 (amended): `create` stamps `createdAt` from the first clock read
and `updatedAt` from the second, separate read; under a monotone clock the
created record satisfies `createdAt ≤ updatedAt`, with equality exactly
when the clock does not advance between the two reads — not guaranteed
equality. -/
theorem C7_theorem (terms : Collection) (input : MedicalTermCreate)
    (now1 now2 : Nat) (oid : String) (h : now1 ≤ now2) :
    ∃ d, findOne (create_term terms input now1 now2 oid).2 oid = some d ∧
      d.get? "createdAt" = some (BVal.time now1) ∧
      d.get? "updatedAt" = some (BVal.time now2) ∧ now1 ≤ now2 := by
  refine ⟨(input.model_dump.set "createdAt" (BVal.time now1)).set "updatedAt"
    (BVal.time now2), ?_, ?_, ?_, h⟩
  · simp [create_term, findOne]
  · rw [Doc.get?_set_ne _ _ (by decide), Doc.get?_set_self]
  · rw [Doc.get?_set_self]

/-- Witness for C7's amended theorem at concrete inputs. -/
theorem C7_witness :
    ∃ d, findOne (create_term [] sampleInput 3 4 oidB).2 oidB = some d ∧
      d.get? "createdAt" = some (BVal.time 3) ∧
      d.get? "updatedAt" = some (BVal.time 4) ∧ 3 ≤ 4 :=
  C7_theorem [] sampleInput 3 4 oidB (by decide)

/-! ### Claim C8 -/

/-- C8: updating an existing record applies a partial merge — every field
named in the patch takes the patch's value, every unnamed field keeps its
prior value — and `updatedAt` is overwritten with the current clock read
regardless of any caller-supplied value for that key. -/
theorem C8_theorem (terms : Collection) (id oid : String) (d patch : Doc)
    (now : Nat) (hdec : objectIdDecode id = some oid)
    (hfound : findOne terms oid = some d) (hnd : patch.keys.Nodup) :
    ∃ d', findOne (update_term terms id patch now).2 oid = some d' ∧
      d'.get? "updatedAt" = some (BVal.time now) ∧
      ∀ k, k ≠ "updatedAt" →
        d'.get? k = match patch.get? k with
          | some v => some v
          | none => d.get? k := by
  have hnd' : (patch.set "updatedAt" (BVal.time now)).keys.Nodup :=
    Doc.keys_set_nodup hnd
  refine ⟨d.setAll (patch.set "updatedAt" (BVal.time now)), ?_, ?_, ?_⟩
  · simp only [update_term, hdec]
    rw [findOne_updateOne, hfound]
    rfl
  · rw [Doc.get?_setAll _ _ hnd', Doc.get?_set_self]
  · intro k hk
    rw [Doc.get?_setAll _ _ hnd', Doc.get?_set_ne _ _ hk]

/-- Witness for C8's theorem: patch one field of a stored record. -/
theorem C8_witness :
    ∃ d', findOne (update_term [(oidA, herzDoc)] oidA
        [("kurdish", BVal.str "Can")] 7).2 oidA = some d' ∧
      d'.get? "updatedAt" = some (BVal.time 7) ∧
      ∀ k, k ≠ "updatedAt" →
        d'.get? k = match Doc.get? [("kurdish", BVal.str "Can")] k with
          | some v => some v
          | none => herzDoc.get? k :=
  C8_theorem [(oidA, herzDoc)] oidA oidA herzDoc [("kurdish", BVal.str "Can")] 7
    (by decide) (by decide) (by decide)

/-! ### More fixtures -/

/-- A second stored term document, sorting before `herzDoc` by `german`. -/
def gallDoc : Doc :=
  [("german", .str "Galle"), ("kurdish", .str "Zirav"), ("category", .str "anatomy")]

/-- The shaped form of `herzDoc` under id `oidA`. -/
def shapedHerz : Doc :=
  [("id", .str oidA), ("german", .str "Herz"), ("kurdish", .str "Dil"),
   ("pronunciationDe", .null), ("pronunciationKu", .null),
   ("category", .str "anatomy"), ("example", .null), ("relatedTerms", .arr [])]

/-- The shaped form of `gallDoc` under id `oidB`. -/
def shapedGalle : Doc :=
  [("id", .str oidB), ("german", .str "Galle"), ("kurdish", .str "Zirav"),
   ("pronunciationDe", .null), ("pronunciationKu", .null),
   ("category", .str "anatomy"), ("example", .null), ("relatedTerms", .arr [])]

/-- A create input with every optional field supplied. -/
def fullInput : MedicalTermCreate :=
  { german := "Leber", kurdish := "Kezeb", pronunciationDe := some "LEH-ber",
    pronunciationKu := some "keh-ZEB", category := "anatomy",
    example' := some { german := "Die Leber arbeitet.", kurdish := "Kezeb dixebite." },
    relatedTerms := some ["a1"] }

/-! ### Claim C3 -/

/-- C3 falls on its timestamp conjunct: after create-then-get, the shaped
record omits `createdAt` and `updatedAt` entirely (`term_helper` never
copies them), so its fields do not equal the submitted input plus `id`,
`createdAt` and `updatedAt`. -/
theorem C3_counterexample :
    get_term (create_term [] sampleInput 5 5 oidA).2 oidA = Res.ok shapedHerz ∧
    shapedHerz.get? "createdAt" = none ∧ shapedHerz.get? "updatedAt" = none := by
  decide

/-- C3 (amended): the shaped representation carries `id` as a string
(never the store-native identifier), includes the declared input fields
with null substituted for absent optionals, and defaults `relatedTerms`
to an empty array when the key is absent in storage — but it omits
`createdAt` and `updatedAt`; create followed by get on the returned id
therefore yields exactly the submitted fields plus `id`, without the
timestamps. -/
theorem C3_theorem (terms : Collection) (input : MedicalTermCreate)
    (now1 now2 : Nat) (oid : String) (hoid : objectIdDecode oid = some oid) :
    (get_term (create_term terms input now1 now2 oid).2 oid =
      Res.ok [("id", .str oid),
              ("german", .str input.german),
              ("kurdish", .str input.kurdish),
              ("pronunciationDe", optStrVal input.pronunciationDe),
              ("pronunciationKu", optStrVal input.pronunciationKu),
              ("category", .str input.category),
              ("example", exampleVal input.example'),
              ("relatedTerms", relatedVal input.relatedTerms)]) ∧
    (Doc.get? [("id", BVal.str oid),
              ("german", .str input.german),
              ("kurdish", .str input.kurdish),
              ("pronunciationDe", optStrVal input.pronunciationDe),
              ("pronunciationKu", optStrVal input.pronunciationKu),
              ("category", .str input.category),
              ("example", exampleVal input.example'),
              ("relatedTerms", relatedVal input.relatedTerms)] "createdAt" = none ∧
     Doc.get? [("id", BVal.str oid),
              ("german", .str input.german),
              ("kurdish", .str input.kurdish),
              ("pronunciationDe", optStrVal input.pronunciationDe),
              ("pronunciationKu", optStrVal input.pronunciationKu),
              ("category", .str input.category),
              ("example", exampleVal input.example'),
              ("relatedTerms", relatedVal input.relatedTerms)] "updatedAt" = none) ∧
    (∀ d g k c, Doc.get? d "german" = some g → Doc.get? d "kurdish" = some k →
      Doc.get? d "category" = some c → Doc.get? d "relatedTerms" = none →
      ∃ sh, term_helper oid d = some sh ∧
        sh.get? "relatedTerms" = some (BVal.arr [])) := by
  refine ⟨?_, ⟨by simp [Doc.get?], by simp [Doc.get?]⟩, ?_⟩
  · simp [get_term, hoid, create_term, readback, findOne, term_helper,
      MedicalTermCreate.model_dump, Doc.set, Doc.get?]
  · intro d g k c hg hk hc hr
    refine ⟨[("id", BVal.str oid), ("german", g), ("kurdish", k),
      ("pronunciationDe", (d.get? "pronunciationDe").getD BVal.null),
      ("pronunciationKu", (d.get? "pronunciationKu").getD BVal.null),
      ("category", c), ("example", (d.get? "example").getD BVal.null),
      ("relatedTerms", BVal.arr [])], ?_, ?_⟩
    · simp [term_helper, hg, hk, hc, hr]
    · simp [Doc.get?]

/-- Witness for C3's amended theorem: create with every optional supplied,
then get. -/
theorem C3_witness :
    get_term (create_term [] fullInput 1 2 oidB).2 oidB =
      Res.ok [("id", .str oidB),
              ("german", .str "Leber"),
              ("kurdish", .str "Kezeb"),
              ("pronunciationDe", .str "LEH-ber"),
              ("pronunciationKu", .str "keh-ZEB"),
              ("category", .str "anatomy"),
              ("example", .obj "Die Leber arbeitet." "Kezeb dixebite."),
              ("relatedTerms", .arr ["a1"])] :=
  (C3_theorem [] fullInput 1 2 oidB (by decide)).1

/-! ### Claim C4 -/

/-- For search strings inside the modelled regex fragment that contain no
metacharacter (no dot), the source's regex clause coincides with literal
case-insensitive substring containment on the field. -/
theorem fieldMatchesRe_eq_CI {pat : String} (h : '.' ∉ pat.data)
    (d : Doc) (key : String) :
    fieldMatchesRe d key pat = fieldContainsCI d key pat := by
  unfold fieldMatchesRe fieldContainsCI
  rcases d.get? key with _ | v
  · rfl
  · cases v
    · rfl
    · exact reFound_eq_specContainsCI h _
    · rfl
    · rfl
    · rfl

/-- C4 falls: the search string is handed to the store as a regex pattern,
not a literal. With search `"."`, listing returns the Herz record although
neither its `german` nor its `kurdish` field contains `"."` as a substring
under case-insensitive comparison. -/
theorem C4_counterexample :
    get_all_terms [(oidA, herzDoc)] none (some ".") = some [shapedHerz] ∧
    fieldContainsCI herzDoc "german" "." = false ∧
    fieldContainsCI herzDoc "kurdish" "." = false := by
  decide

/-- C4 (amended): the search string is interpreted as a case-insensitive
regular-expression pattern, not a literal; for search strings containing
no PCRE metacharacter the list operation coincides with filtering by
case-insensitive substring containment on `german` or `kurdish`
(AND-combined with the category filter), and an empty or absent search
string is a no-op. -/
theorem C4_theorem (terms : Collection) (cat : Option String) (pat : String)
    (hmeta : ∀ c ∈ pat.data, isRegexMeta c = false) :
    get_all_terms terms cat (some pat) = specList terms cat (some pat) ∧
    ∀ c, get_all_terms terms c (some "") = get_all_terms terms c none := by
  have hdot : '.' ∉ pat.data := by
    intro hc
    have hm := hmeta '.' hc
    simp [isRegexMeta] at hm
  constructor
  · unfold get_all_terms specList
    have hf : terms.filter (fun e => matchesQuery cat (some pat) e.2)
        = terms.filter (fun e => specMatchesQuery cat (some pat) e.2) := by
      apply List.filter_congr
      intro e _
      simp only [matchesQuery, specMatchesQuery, matchesSearch, specMatchesSearch]
      by_cases hp : pat = ""
      · simp [hp]
      · rw [if_pos hp, if_pos hp, fieldMatchesRe_eq_CI hdot, fieldMatchesRe_eq_CI hdot]
    rw [hf]
  · intro c
    unfold get_all_terms
    have hf : terms.filter (fun e => matchesQuery c (some "") e.2)
        = terms.filter (fun e => matchesQuery c none e.2) := by
      apply List.filter_congr
      intro e _
      simp [matchesQuery, matchesSearch]
    rw [hf]

/-- Witness for C4's amended theorem: the spec's own scenario, searching
`"her"` (free of every PCRE metacharacter) over the Herz record. -/
theorem C4_witness :
    (get_all_terms [(oidA, herzDoc)] none (some "her")
      = specList [(oidA, herzDoc)] none (some "her")) ∧
    ∀ c, get_all_terms [(oidA, herzDoc)] c (some "")
      = get_all_terms [(oidA, herzDoc)] c none :=
  C4_theorem [(oidA, herzDoc)] none "her" (by decide)

/-! ### Claim C6 -/

/-- C6: every sequence returned by the term list operation is
non-decreasing by its `german` field — stated over stores whose records
carry string `german` values, as the data model requires of terms. -/
theorem C6_theorem (terms : Collection) (cat s : Option String)
    (out : List Doc)
    (hstr : ∀ e ∈ terms, ∃ g, Doc.get? e.2 "german" = some (BVal.str g))
    (hout : get_all_terms terms cat s = some out) :
    out.Chain' (fun a b => ∃ x y, a.get? "german" = some (BVal.str x) ∧
      b.get? "german" = some (BVal.str y) ∧ x ≤ y) := by
  unfold get_all_terms at hout
  have hsorted := chain'_sortBy entryLe_total
    (terms.filter (fun e => matchesQuery cat s e.2))
  have hf2 := shapeAll_forall₂ hout
  have hmem : ∀ e ∈ sortBy entryLe (terms.filter (fun e => matchesQuery cat s e.2)),
      ∃ g, Doc.get? e.2 "german" = some (BVal.str g) := by
    intro e he
    exact hstr e (List.mem_of_mem_filter (mem_sortBy he))
  have hf2' : List.Forall₂
      (fun e d => (∃ g, Doc.get? e.2 "german" = some (BVal.str g)) ∧
        term_helper e.1 e.2 = some d)
      (sortBy entryLe (terms.filter (fun e => matchesQuery cat s e.2))) out := by
    rw [List.forall₂_and_left]
    exact ⟨hmem, hf2⟩
  refine chain'_of_forall₂ hf2' hsorted ?_
  rintro a b a' b' ⟨⟨x, hx⟩, ha⟩ ⟨⟨y, hy⟩, hb⟩ hr
  have hax : Doc.get? a' "german" = some (BVal.str x) := by
    rw [term_helper_german ha, hx]
  have hby : Doc.get? b' "german" = some (BVal.str y) := by
    rw [term_helper_german hb, hy]
  refine ⟨x, y, hax, hby, ?_⟩
  have hle : bvalLe (BVal.str x) (BVal.str y) = true := by
    have h1 := hr
    unfold entryLe at h1
    rw [hx, hy] at h1
    exact h1
  exact (strLeB_iff_le x y).mp (by simpa [bvalLe] using hle)

/-- Witness for C6's theorem: a two-record store listed with no filters. -/
theorem C6_witness :
    List.Chain' (fun a b => ∃ x y, Doc.get? a "german" = some (BVal.str x) ∧
      Doc.get? b "german" = some (BVal.str y) ∧ x ≤ y)
      [shapedGalle, shapedHerz] :=
  C6_theorem [(oidA, herzDoc), (oidB, gallDoc)] none none
    [shapedGalle, shapedHerz]
    (by
      intro e he
      simp only [List.mem_cons, List.not_mem_nil, or_false] at he
      rcases he with rfl | rfl
      · exact ⟨"Herz", by decide⟩
      · exact ⟨"Galle", by decide⟩)
    (by decide)
